import Mathlib

/-!
# Formal model of the `docullim` documentation generator

A shallow embedding, in Lean 4, of the core of the `docullim` repository
(`docullim/generator.py`, `docullim/cache.py`, `docullim/config.py`) together
with proofs about its behaviour.

Conventions:
* Python strings are Lean `String`s; byte strings are `List Nat` with every
  element below 256.
* Machine words are `Nat` with explicit reduction `% 2^32` where Python's
  fixed-width arithmetic (inside `hashlib`) matters.
* External collaborators (the `litellm` completion call, the `sqlite3`
  connection, the `libcst` parser, the filesystem glob) are passed in as
  function parameters; fallible external calls return `Except`/`Option`.
* The per-statement / per-node structure of `libcst` trees is modelled by a
  full-fidelity tree in which every unmodified leaf stores its exact source
  text, so that emission of an untouched tree concatenates to the original
  file contents.
-/

namespace Docullim

/-! ## UTF-8 encoding (Python `str.encode("utf-8")`) -/

/-- UTF-8 encoding of a single Unicode code point, as a list of bytes. -/
def utf8EncodeChar (c : Char) : List Nat :=
  let n := c.toNat
  if n < 0x80 then [n]
  else if n < 0x800 then
    [0xC0 ||| (n >>> 6), 0x80 ||| (n &&& 0x3F)]
  else if n < 0x10000 then
    [0xE0 ||| (n >>> 12), 0x80 ||| ((n >>> 6) &&& 0x3F), 0x80 ||| (n &&& 0x3F)]
  else
    [0xF0 ||| (n >>> 18), 0x80 ||| ((n >>> 12) &&& 0x3F),
     0x80 ||| ((n >>> 6) &&& 0x3F), 0x80 ||| (n &&& 0x3F)]

/-- `s.encode("utf-8")` : the UTF-8 byte sequence of a string. -/
def utf8Bytes (s : String) : List Nat :=
  (s.data.map utf8EncodeChar).flatten

/-! ## SHA-256 (`hashlib.sha256`), FIPS 180-4, over `Nat` with explicit `% 2^32` -/

/-- Truncation to a 32-bit word. -/
def w32 (n : Nat) : Nat := n % 4294967296

/-- The SHA-256 ROTR operation on a 32-bit word. -/
def rotr32 (x n : Nat) : Nat := w32 ((x >>> n) ||| (x <<< (32 - n)))

/-- Bitwise complement of a 32-bit word. -/
def compl32 (x : Nat) : Nat := x ^^^ 0xFFFFFFFF

def ch32 (x y z : Nat) : Nat := (x &&& y) ^^^ (compl32 x &&& z)

def maj32 (x y z : Nat) : Nat := (x &&& y) ^^^ (x &&& z) ^^^ (y &&& z)

def bigSigma0 (x : Nat) : Nat := rotr32 x 2 ^^^ rotr32 x 13 ^^^ rotr32 x 22

def bigSigma1 (x : Nat) : Nat := rotr32 x 6 ^^^ rotr32 x 11 ^^^ rotr32 x 25

def smallSigma0 (x : Nat) : Nat := rotr32 x 7 ^^^ rotr32 x 18 ^^^ (x >>> 3)

def smallSigma1 (x : Nat) : Nat := rotr32 x 17 ^^^ rotr32 x 19 ^^^ (x >>> 10)

/-- The 64 SHA-256 round constants. -/
def shaK : List Nat :=
  [1116352408, 1899447441, 3049323471, 3921009573, 961987163,
   1508970993, 2453635748, 2870763221, 3624381080, 310598401,
   607225278, 1426881987, 1925078388, 2162078206, 2614888103,
   3248222580, 3835390401, 4022224774, 264347078, 604807628,
   770255983, 1249150122, 1555081692, 1996064986, 2554220882,
   2821834349, 2952996808, 3210313671, 3336571891, 3584528711,
   113926993, 338241895, 666307205, 773529912, 1294757372,
   1396182291, 1695183700, 1986661051, 2177026350, 2456956037,
   2730485921, 2820302411, 3259730800, 3345764771, 3516065817,
   3600352804, 4094571909, 275423344, 430227734, 506948616,
   659060556, 883997877, 958139571, 1322822218, 1537002063,
   1747873779, 1955562222, 2024104815, 2227730452, 2361852424,
   2428436474, 2756734187, 3204031479, 3329325298]

/-- The SHA-256 initial hash value. -/
def shaH0 : List Nat :=
  [1779033703, 3144134277, 1013904242, 2773480762,
   1359893119, 2600822924, 528734635, 1541459225]

/-- SHA-256 padding: append `0x80`, zeros, then the 64-bit big-endian bit
length, reaching a multiple of 64 bytes. -/
def shaPad (msg : List Nat) : List Nat :=
  let len := msg.length
  let bitLen := len * 8
  let zeros := (119 - len % 64) % 64
  let lenBytes := (List.range 8).map fun i => (bitLen >>> (8 * (7 - i))) % 256
  msg ++ [0x80] ++ List.replicate zeros 0 ++ lenBytes

/-- The 16 big-endian 32-bit words of one 64-byte block. -/
def bytesToWords (block : List Nat) : List Nat :=
  (List.range 16).map fun i =>
    block.getD (4 * i) 0 * 16777216 + block.getD (4 * i + 1) 0 * 65536 +
    block.getD (4 * i + 2) 0 * 256 + block.getD (4 * i + 3) 0

/-- One step of message-schedule extension: append word `t` computed from
words `t-2`, `t-7`, `t-15`, `t-16`. -/
def extendOnce (ws : List Nat) : List Nat :=
  let t := ws.length
  ws ++ [w32 (smallSigma1 (ws.getD (t - 2) 0) + ws.getD (t - 7) 0 +
              smallSigma0 (ws.getD (t - 15) 0) + ws.getD (t - 16) 0)]

/-- One SHA-256 compression round on the state `[a,b,c,d,e,f,g,h]`. -/
def shaRound (st : List Nat) (kw : Nat × Nat) : List Nat :=
  match st with
  | [a, b, c, d, e, f, g, h] =>
    let t1 := w32 (h + bigSigma1 e + ch32 e f g + kw.1 + kw.2)
    let t2 := w32 (bigSigma0 a + maj32 a b c)
    [w32 (t1 + t2), a, b, c, w32 (d + t1), e, f, g]
  | other => other

/-- Compression of one 64-byte block into the running 8-word hash state. -/
def shaCompress (hs : List Nat) (block : List Nat) : List Nat :=
  let ws := Nat.repeat extendOnce 48 (bytesToWords block)
  let st := (shaK.zip ws).foldl shaRound hs
  List.zipWith (fun x y => w32 (x + y)) hs st

/-- Fold the compression over `n` consecutive 64-byte blocks. -/
def shaBlocks : Nat → List Nat → List Nat → List Nat
  | 0, hs, _ => hs
  | n + 1, hs, bytes => shaBlocks n (shaCompress hs (bytes.take 64)) (bytes.drop 64)

/-- Big-endian bytes of one 32-bit word. -/
def wordToBytes (x : Nat) : List Nat :=
  [(x >>> 24) % 256, (x >>> 16) % 256, (x >>> 8) % 256, x % 256]

/-- SHA-256 digest (32 bytes) of a byte string. -/
def sha256 (msg : List Nat) : List Nat :=
  let padded := shaPad msg
  let hs := shaBlocks (padded.length / 64) shaH0 padded
  (hs.map wordToBytes).flatten

/-- One lowercase hexadecimal digit. -/
def hexDigitChar (n : Nat) : Char :=
  if n < 10 then Char.ofNat (48 + n) else Char.ofNat (87 + n)

/-- Lowercase hex representation of a byte string (Python `.hexdigest()`). -/
def hexdigest (bytes : List Nat) : String :=
  String.mk ((bytes.map fun b => [hexDigitChar (b / 16), hexDigitChar (b % 16)]).flatten)

/-- `generator.hash_source`: SHA-256 hex digest of the UTF-8 encoding of a
source string. -/
def hash_source (source : String) : String :=
  hexdigest (sha256 (utf8Bytes source))

/-- The cache key computed in `generator.process_file`:
`key = hash_source(source + prompt_template)` — plain string concatenation,
no separator. -/
def makeCacheKey (source prompt_template : String) : String :=
  hash_source (source ++ prompt_template)

/-! ## The annotation cache (`docullim/cache.py`)

The sqlite table `docs (hash TEXT PRIMARY KEY, doc TEXT)` is modelled as an
association list of rows in insertion order.  `REPLACE INTO` deletes any
conflicting row (same primary key) and inserts the new one; `SELECT ... WHERE
hash=?` with `fetchone()` returns the first matching row. -/

/-- The `docs` table: rows `(hash, doc)`. -/
abbrev Table := List (String × String)

/-- `SELECT doc FROM docs WHERE hash=?` followed by `fetchone()`. -/
def sqlSelect (t : Table) (key : String) : Option String :=
  (t.find? fun r => r.1 = key).map (·.2)

/-- `REPLACE INTO docs (hash, doc) VALUES (?, ?)`: delete any row with the
same primary key, then insert the new row. -/
def sqlReplaceInto (t : Table) (key value : String) : Table :=
  (t.filter fun r => r.1 ≠ key) ++ [(key, value)]

/-- `Cache.get`: run the select; return `row[0]` if a row came back, else
`None`.  (`cache.py` lines 23–30; no exception handling.) -/
def cacheGet (t : Table) (key : String) : Option String :=
  sqlSelect t key

/-- `Cache.set`: run the replace.  (`cache.py` lines 32–37.) -/
def cacheSet (t : Table) (key value : String) : Table :=
  sqlReplaceInto t key value

/-- Primary-key uniqueness: no two rows share a hash. -/
abbrev uniqueKeys (t : Table) : Prop := (t.map Prod.fst).Nodup

/-! For failure semantics the connection is a parameter: a fallible store
maps a key to `Except` an error or the optional row.  `Cache.get` has no
`try`/`except`, so the store's error propagates unchanged. -/

/-- `Cache.get` over a fallible sqlite connection: `connection.execute` may
raise; the method catches nothing. -/
def cacheGetE (connSelect : String → Except String (Option String))
    (key : String) : Except String (Option String) := do
  let row ← connSelect key
  match row with
  | some doc => pure (some doc)
  | none => pure none

/-- `Cache.set` over a fallible sqlite connection: `connection.execute` /
`commit` may raise; the method catches nothing. -/
def cacheSetE (connReplace : String → String → Except String Unit)
    (key value : String) : Except String Unit := do
  connReplace key value
  pure ()

/-- The cache interaction of `generator.process_file` (lines 111–117) for one
unit, with a cache present:

```
doc = cache.get(key)
if doc is None:
    doc = generate_doc(source, model, prompt_template)
    cache.set(key, doc)
```

Run in the `Except` monad because neither `cache.get` nor `cache.set` is
wrapped in a `try`: a store error propagates out of the per-unit step. -/
def processDocStep (getFn : String → Except String (Option String))
    (setFn : String → String → Except String Unit)
    (genFn : Unit → String) (key : String) : Except String String := do
  let cached ← getFn key
  match cached with
  | some doc => pure doc
  | none =>
    let doc := genFn ()
    setFn key doc
    pure doc

/-! ## The generation gateway (`generator.generate_doc`)

The external `litellm.completion` call is a parameter returning `Except`: an
`.error` models any exception raised by the call chain
`completion(...)` / `response.choices[0]` / `.message.content.strip()`. -/

structure Message where
  content : String

structure Choice where
  message : Message

structure Response where
  choices : List Choice

/-- Python `str.strip()` (whitespace stripping). -/
def pyStrip (s : String) : String := s.trim

/-- `generator.generate_doc`: build the prompt, call the model inside
`try`/`except`, and on failure return the error text. -/
def generate_doc (completionFn : String → String → Except String Response)
    (source_code model prompt_template : String) : String :=
  let prompt := prompt_template ++ "\n" ++ source_code
  let attempt : Except String String := do
    let response ← completionFn model prompt
    match response.choices.head? with
    | some choice => pure (pyStrip choice.message.content)
    | none => Except.error "list index out of range"
  match attempt with
  | .ok doc => doc
  | .error e => "Error generating documentation: " ++ e

/-! ## Configuration (`docullim/config.py`) -/

/-- A top-level JSON configuration value: the keys docullim uses hold a
string (`model`), an integer (`max_concurrency`) or a string-to-string
mapping (`prompts`). -/
inductive ConfigVal where
  | str (s : String)
  | int (n : Int)
  | table (m : List (String × String))
deriving DecidableEq

/-- A Python dict with string keys, as an association list in insertion
order with unique keys. -/
abbrev Dict := List (String × ConfigVal)

/-- Python `d[k]` / `d.get(k)`: first (only) binding of `k`. -/
def dictGet (d : Dict) (k : String) : Option ConfigVal :=
  (d.find? fun kv => kv.1 = k).map (·.2)

/-- One step of Python `dict.update`: replace the binding of `k` in place if
present, otherwise append it. -/
def dictSet : Dict → String → ConfigVal → Dict
  | [], k, v => [(k, v)]
  | (k0, v0) :: rest, k, v =>
    if k0 = k then (k0, v) :: rest else (k0, v0) :: dictSet rest k v

/-- Python `base.update(user)`: shallow, top-level key replacement. -/
def dictUpdate (base user : Dict) : Dict :=
  user.foldl (fun acc kv => dictSet acc kv.1 kv.2) base

/-- `config.DEFAULT_CONFIG`. -/
def DEFAULT_CONFIG : Dict :=
  [("model", .str "gpt-4"),
   ("max_concurrency", .int 1),
   ("prompts", .table
     [("default", "Generate short and simple documentation explaing the code and include sample usage. don't add the word documentation in the begining and also don't explain the example usage.")])]

/-- `config.load_config`, with the file system abstracted: `userConfig` is
the parsed JSON of the config file when one was found and readable, `none`
otherwise.  The result starts from `DEFAULT_CONFIG.copy()` and applies one
shallow `dict.update`. -/
def load_config (userConfig : Option Dict) : Dict :=
  match userConfig with
  | some user => dictUpdate DEFAULT_CONFIG user
  | none => DEFAULT_CONFIG

/-- The prompts mapping read by `generator.process_file`:
`prompts = config.get("prompts", {})`. -/
def configPrompts (config : Dict) : List (String × String) :=
  match dictGet config "prompts" with
  | some (.table m) => m
  | _ => []

/-- `default_prompt = prompts.get("default")` in `generator.process_file`. -/
def defaultPrompt (config : Dict) : Option String :=
  ((configPrompts config).find? fun kv => kv.1 = "default").map (·.2)

/-! ## File collection (`generator.collect_files`) -/

/-- `any(wildcard in pattern for wildcard in ["*", "?", "[", "]"])`. -/
def hasWildcard (pattern : String) : Bool :=
  pattern.data.any fun c => c = '*' ∨ c = '?' ∨ c = '[' ∨ c = ']'

/-- Python `set.add`, on a set represented as a duplicate-free list in
insertion order. -/
def setAdd (s : List String) (x : String) : List String :=
  if x ∈ s then s else s ++ [x]

/-- Python `set.update` with an iterable. -/
def setUpdate (s : List String) (xs : List String) : List String :=
  xs.foldl setAdd s

/-- `generator.collect_files`, with the filesystem abstracted: `globFn` is
`glob.glob(·, recursive=True)` and `existsFn` is `os.path.exists`.  Glob
results are accumulated into a set; plain paths are added when they exist
(a warning is printed otherwise); the set is returned as a list. -/
def collect_files (globFn : String → List String) (existsFn : String → Bool)
    (patterns : List String) : List String :=
  patterns.foldl
    (fun files pattern =>
      if hasWildcard pattern then setUpdate files (globFn pattern)
      else if existsFn pattern then setAdd files pattern
      else files)
    []

/-! ## The full-fidelity tree and the rewrite engine (`generator.py`)

A `libcst` module is modelled as a sequence of statements.  A statement is
either a simple statement line consisting of exactly one string-literal
expression (what the matcher
`m.SimpleStatementLine(body=[m.Expr(m.SimpleString())])` accepts — a
docstring position), any other simple statement line, or a function / class
definition with a header and an indented body.  Every leaf stores its exact
source text, so emission of an untouched tree is concatenation of the
original text. -/

mutual

inductive Stmt where
  | simpleStr (text : String)
  | simpleOther (text : String)
  | funcDef (name : String) (header : String) (body : Body)
  | classDef (name : String) (header : String) (body : Body)

inductive Body where
  | nil
  | cons (head : Stmt) (tail : Body)

end

/-- The string token built by `generator._make_docstring_node`:
`f'\x7b doc \x7d'` surrounded by forced triple double quotes, with the
annotation text inserted verbatim — no escaping of embedded delimiters. -/
def makeDocstring (doc : String) : String :=
  "\"\"\"" ++ doc ++ "\"\"\""

/-- `generator._make_docstring_node`: a `SimpleStatementLine` holding one
`Expr(SimpleString(...))` whose token is `makeDocstring doc`. -/
def make_docstring_node (doc : String) : Stmt :=
  .simpleStr (makeDocstring doc)

/-- Membership/lookup in the `modifications` dict of `DocStringUpdater`. -/
def modsGet (mods : List (String × String)) (name : String) : Option String :=
  (mods.find? fun kv => kv.1 = name).map (·.2)

/-- The body update performed by `DocStringUpdater.leave_FunctionDef` /
`leave_ClassDef`: if the body starts with a docstring node, replace it,
otherwise insert the new docstring node at the beginning. -/
def applyDoc (doc : String) (body : Body) : Body :=
  match body with
  | .cons (.simpleStr _) rest => .cons (make_docstring_node doc) rest
  | b => .cons (make_docstring_node doc) b

mutual

/-- `DocStringUpdater` on one statement. `leave_FunctionDef` and
`leave_ClassDef` run on the way out of the traversal, so children are
transformed first; every definition whose name is a key of `modifications`
gets `applyDoc`. -/
def transformStmt (mods : List (String × String)) : Stmt → Stmt
  | .simpleStr text => .simpleStr text
  | .simpleOther text => .simpleOther text
  | .funcDef name header body =>
    match modsGet mods name with
    | some doc => .funcDef name header (applyDoc doc (transformBody mods body))
    | none => .funcDef name header (transformBody mods body)
  | .classDef name header body =>
    match modsGet mods name with
    | some doc => .classDef name header (applyDoc doc (transformBody mods body))
    | none => .classDef name header (transformBody mods body)

/-- `DocStringUpdater` on a statement sequence. -/
def transformBody (mods : List (String × String)) : Body → Body
  | .nil => .nil
  | .cons s rest => .cons (transformStmt mods s) (transformBody mods rest)

end

mutual

/-- `Module.code`: emission of one statement, concatenating stored source
text. -/
def emitStmt : Stmt → String
  | .simpleStr text => text
  | .simpleOther text => text
  | .funcDef _ header body => header ++ emitBody body
  | .classDef _ header body => header ++ emitBody body

/-- `Module.code`: emission of a statement sequence. -/
def emitBody : Body → String
  | .nil => ""
  | .cons s rest => emitStmt s ++ emitBody rest

end

mutual

/-- Emission restricted to the text outside the documentation-block slots of
the definitions targeted by `mods` (the regions the rewrite is allowed to
touch). -/
def emitOutsideStmt (mods : List (String × String)) : Stmt → String
  | .simpleStr text => text
  | .simpleOther text => text
  | .funcDef name header body =>
    header ++ emitOutsideBody mods ((modsGet mods name).isSome) body
  | .classDef name header body =>
    header ++ emitOutsideBody mods ((modsGet mods name).isSome) body

/-- `emitOutsideBody mods atDocSlot b`: emit `b`, skipping its first
statement when `atDocSlot` is set and that statement is a docstring node
(the documentation-block slot of a targeted definition). -/
def emitOutsideBody (mods : List (String × String)) : Bool → Body → String
  | _, .nil => ""
  | false, .cons s rest => emitOutsideStmt mods s ++ emitOutsideBody mods false rest
  | true, .cons (.simpleStr _) rest => emitOutsideBody mods false rest
  | true, .cons s rest => emitOutsideStmt mods s ++ emitOutsideBody mods false rest

end

/-- Whether a statement sequence starts with the docstring node built for
`doc`. -/
def headIsDocFor (doc : String) : Body → Bool
  | .cons (.simpleStr text) _ => text == makeDocstring doc
  | _ => false

mutual

/-- Every definition (at any nesting depth) whose name is targeted by `mods`
carries the corresponding generated docstring as the first statement of its
body. -/
def targetsDocumentedStmt (mods : List (String × String)) : Stmt → Bool
  | .simpleStr _ => true
  | .simpleOther _ => true
  | .funcDef name _ body =>
    (match modsGet mods name with
     | some doc => headIsDocFor doc body
     | none => true) && targetsDocumentedBody mods body
  | .classDef name _ body =>
    (match modsGet mods name with
     | some doc => headIsDocFor doc body
     | none => true) && targetsDocumentedBody mods body

/-- `targetsDocumentedStmt` over a statement sequence. -/
def targetsDocumentedBody (mods : List (String × String)) : Body → Bool
  | .nil => true
  | .cons s rest => targetsDocumentedStmt mods s && targetsDocumentedBody mods rest

end

/-- Index access into a statement sequence. -/
def bodyGet : Body → Nat → Option Stmt
  | .nil, _ => none
  | .cons s _, 0 => some s
  | .cons _ rest, n + 1 => bodyGet rest n

/-! ## Whole-file rewrite (`generator.update_docstrings_in_file`)

The function reads the file, parses it with `cst.parse_module` inside a
`try`, applies `DocStringUpdater`, takes `.code`, and only then opens the
file for writing; on any exception it prints an error and returns without
writing.  The filesystem side effects are recorded as a trace. -/

inductive Effect where
  | writeFile (path content : String)
  | printErr (msg : String)
deriving DecidableEq

/-- `generator.update_docstrings_in_file`: `parseModule` models
`cst.parse_module` (it may raise), `source` is the text read from
`file_path`.  Returns the trace of effects after the initial read. -/
def update_docstrings_in_file (parseModule : String → Except String Body)
    (file_path source : String)
    (modifications : List (String × String)) : List Effect :=
  match parseModule source with
  | .error e =>
    [.printErr ("Error updating docstrings in " ++ file_path ++ ": " ++ e)]
  | .ok module =>
    [.writeFile file_path (emitBody (transformBody modifications module))]

/-- Contents of the file after a trace of effects: the payload of the last
complete write, or the original contents if nothing was written. -/
def finalContent (original : String) (effects : List Effect) : String :=
  effects.foldl
    (fun current e =>
      match e with
      | .writeFile _ content => content
      | .printErr _ => current)
    original

/-! ## Re-parsing an emitted docstring token

Python reads a triple-double-quoted string literal by scanning for the first
closing `\"\"\"` after the opening one; anything left over after the closing
delimiter is not part of the literal.  For annotation texts free of
backslashes this models CPython tokenization of the emitted token. -/

/-- Split a character stream at the first `\"\"\"`, returning the content
before it and the remainder after it. -/
def splitAtTripleQuote : List Char → Option (List Char × List Char)
  | '"' :: '"' :: '"' :: rest => some ([], rest)
  | c :: rest =>
    match splitAtTripleQuote rest with
    | some (content, after) => some (c :: content, after)
    | none => none
  | [] => none

/-- Parse a complete triple-double-quoted string token and recover its
content: the token must open with `\"\"\"`, close at the first following
`\"\"\"`, and have nothing after the closing delimiter. -/
def readTripleQuoted (s : String) : Option String :=
  match s.data with
  | '"' :: '"' :: '"' :: rest =>
    match splitAtTripleQuote rest with
    | some (content, after) =>
      if after = [] then some (String.mk content) else none
    | none => none
  | _ => none

/-! ## Concrete modules used as test inputs -/

/-- A module with two definitions named `f`; only the docstring mapping for
`f` is supplied. -/
def dupModule : Body :=
  .cons (.funcDef "f" "def f():\n" (.cons (.simpleOther "    pass\n") .nil))
    (.cons (.funcDef "f" "def f():\n" (.cons (.simpleOther "    return 1\n") .nil))
      .nil)

/-!
# Theorems
-/

/-- C1 counterexample.  The cache key is the digest of the plain
concatenation `source + prompt_template`: the two distinct input pairs
`("ab", "c")` and `("a", "bc")` have coinciding concatenations and therefore
receive the same fingerprint, refuting the claimed injectivity on pairs. -/
theorem makeCacheKey_not_pair_injective :
    makeCacheKey "ab" "c" = makeCacheKey "a" "bc" ∧
      (("ab", "c") : String × String) ≠ ("a", "bc") := by
  constructor
  · unfold makeCacheKey
    exact congrArg hash_source (by decide)
  · decide

/-- C1 (amended).  `fingerprint(canonicalSource, promptTemplate)` is the
SHA-256 digest of the plain, separator-free concatenation of the two
strings, so any two pairs whose concatenations are byte-equal receive equal
fingerprints — including distinct pairs. -/
theorem makeCacheKey_eq_of_concat_eq (s1 p1 s2 p2 : String)
    (h : s1 ++ p1 = s2 ++ p2) : makeCacheKey s1 p1 = makeCacheKey s2 p2 := by
  unfold makeCacheKey
  rw [h]

/-- Witness for `makeCacheKey_eq_of_concat_eq` at the concrete colliding
pairs. -/
theorem makeCacheKey_eq_of_concat_eq_witness :
    ("ab" : String) ++ "c" = "a" ++ "bc" ∧
      makeCacheKey "ab" "c" = makeCacheKey "a" "bc" :=
  ⟨by decide, makeCacheKey_eq_of_concat_eq "ab" "c" "a" "bc" (by decide)⟩

/-- C2 (code bug).  `_make_docstring_node` inserts the annotation text
verbatim between forced triple double quotes, with no escaping.  For the
annotation `a\"\"\"b` the emitted token `\"\"\"a\"\"\"b\"\"\"` does not
re-parse as a string literal at all (so the rewritten file no longer
parses), while a delimiter-free annotation round-trips exactly. -/
theorem embedded_delimiter_corrupts_docstring :
    readTripleQuoted (makeDocstring "a\"\"\"b") = none ∧
      readTripleQuoted (makeDocstring "plain text") = some "plain text" := by
  constructor
  · decide
  · decide

/-- C3.  The whole-file rewrite is atomic: `update_docstrings_in_file`
either performs no write at all (parse failure: the file keeps its original
contents) or performs exactly one write of the complete newly emitted
source; in both cases the resulting on-disk contents are a complete file,
never a partial one. -/
theorem update_docstrings_in_file_atomic :
    ∀ (parseModule : String → Except String Body) (file_path source : String)
      (modifications : List (String × String)),
      ((∀ p c, Effect.writeFile p c ∉
          update_docstrings_in_file parseModule file_path source modifications) ∧
        finalContent source
          (update_docstrings_in_file parseModule file_path source modifications) =
          source) ∨
      (∃ module, parseModule source = .ok module ∧
        update_docstrings_in_file parseModule file_path source modifications =
          [Effect.writeFile file_path (emitBody (transformBody modifications module))] ∧
        finalContent source
          (update_docstrings_in_file parseModule file_path source modifications) =
          emitBody (transformBody modifications module)) := by
  intro parseModule file_path source modifications
  cases hp : parseModule source with
  | error e =>
    left
    constructor
    · intro p c hmem
      simp [update_docstrings_in_file, hp] at hmem
    · simp [update_docstrings_in_file, hp, finalContent]
  | ok module =>
    right
    exact ⟨module, rfl, by simp [update_docstrings_in_file, hp],
      by simp [update_docstrings_in_file, hp, finalContent]⟩

/-- C7.  `generate_doc` always returns a string: on any failure of the
underlying completion call (or an empty choice list) it returns the
human-readable message `Error generating documentation: <cause>`, and on
success it returns the stripped message content. -/
theorem generate_doc_never_raises :
    ∀ (completionFn : String → String → Except String Response)
      (source_code model prompt_template : String),
      (∃ e, generate_doc completionFn source_code model prompt_template =
          "Error generating documentation: " ++ e) ∨
      (∃ r c, completionFn model (prompt_template ++ "\n" ++ source_code) = .ok r ∧
        r.choices.head? = some c ∧
        generate_doc completionFn source_code model prompt_template =
          pyStrip c.message.content) := by
  intro completionFn source_code model prompt_template
  cases hr : completionFn model (prompt_template ++ "\n" ++ source_code) with
  | error e =>
    left
    exact ⟨e, by simp [generate_doc, hr, Bind.bind, Except.bind]⟩
  | ok r =>
    cases hc : r.choices.head? with
    | none =>
      left
      exact ⟨"list index out of range", by simp [generate_doc, hr, hc, Bind.bind, Except.bind]⟩
    | some c =>
      right
      exact ⟨r, c, rfl, hc, by simp [generate_doc, hr, hc, Bind.bind, Except.bind, Pure.pure, Except.pure]⟩

mutual

theorem transformStmt_nil : (s : Stmt) → transformStmt [] s = s
  | .simpleStr _ => rfl
  | .simpleOther _ => rfl
  | .funcDef n h b => by
    simp [transformStmt, modsGet, transformBody_nil b]
  | .classDef n h b => by
    simp [transformStmt, modsGet, transformBody_nil b]

theorem transformBody_nil : (b : Body) → transformBody [] b = b
  | .nil => rfl
  | .cons s rest => by
    simp [transformBody, transformStmt_nil s, transformBody_nil rest]

end

mutual

theorem emitOutsideStmt_transform (mods : List (String × String)) :
    (s : Stmt) → emitOutsideStmt mods (transformStmt mods s) = emitOutsideStmt mods s
  | .simpleStr _ => rfl
  | .simpleOther _ => rfl
  | .funcDef n h b => by
    cases hm : modsGet mods n with
    | none =>
      simp only [transformStmt, hm, emitOutsideStmt, Option.isSome_none,
        emitOutsideBody_transform mods b]
    | some d =>
      simp only [transformStmt, hm, emitOutsideStmt, Option.isSome_some,
        emitOutsideBody_applyDoc_transform mods d b]
  | .classDef n h b => by
    cases hm : modsGet mods n with
    | none =>
      simp only [transformStmt, hm, emitOutsideStmt, Option.isSome_none,
        emitOutsideBody_transform mods b]
    | some d =>
      simp only [transformStmt, hm, emitOutsideStmt, Option.isSome_some,
        emitOutsideBody_applyDoc_transform mods d b]

theorem emitOutsideBody_transform (mods : List (String × String)) :
    (b : Body) → emitOutsideBody mods false (transformBody mods b) =
      emitOutsideBody mods false b
  | .nil => rfl
  | .cons s rest => by
    simp only [transformBody, emitOutsideBody, emitOutsideStmt_transform mods s,
      emitOutsideBody_transform mods rest]

theorem emitOutsideBody_applyDoc_transform (mods : List (String × String))
    (d : String) :
    (b : Body) → emitOutsideBody mods true (applyDoc d (transformBody mods b)) =
      emitOutsideBody mods true b
  | .nil => by
    simp only [transformBody, applyDoc, make_docstring_node, emitOutsideBody]
  | .cons (.simpleStr t) rest => by
    simp only [transformBody, transformStmt, applyDoc, make_docstring_node,
      emitOutsideBody, emitOutsideBody_transform mods rest]
  | .cons (.simpleOther t) rest => by
    simp only [transformBody, transformStmt, applyDoc, make_docstring_node,
      emitOutsideBody, emitOutsideBody_transform mods rest]
  | .cons (.funcDef n2 h2 b2) rest => by
    have hs := emitOutsideStmt_transform mods (.funcDef n2 h2 b2)
    cases hm2 : modsGet mods n2 with
    | none =>
      simp only [transformStmt, hm2] at hs
      simp only [transformBody, transformStmt, hm2, applyDoc, make_docstring_node,
        emitOutsideBody]
      rw [hs, emitOutsideBody_transform mods rest]
    | some d2 =>
      simp only [transformStmt, hm2] at hs
      simp only [transformBody, transformStmt, hm2, applyDoc, make_docstring_node,
        emitOutsideBody]
      rw [emitOutsideBody_transform mods rest]
      exact congrArg (fun z => z ++ emitOutsideBody mods false rest) hs
  | .cons (.classDef n2 h2 b2) rest => by
    have hs := emitOutsideStmt_transform mods (.classDef n2 h2 b2)
    cases hm2 : modsGet mods n2 with
    | none =>
      simp only [transformStmt, hm2] at hs
      simp only [transformBody, transformStmt, hm2, applyDoc, make_docstring_node,
        emitOutsideBody]
      rw [hs, emitOutsideBody_transform mods rest]
    | some d2 =>
      simp only [transformStmt, hm2] at hs
      simp only [transformBody, transformStmt, hm2, applyDoc, make_docstring_node,
        emitOutsideBody]
      rw [emitOutsideBody_transform mods rest]
      exact congrArg (fun z => z ++ emitOutsideBody mods false rest) hs

end

/-- C6.  With an empty modifications mapping the rewrite re-emits the file
byte-identically; with any mapping, all emitted text outside the
documentation-block slots of the targeted definitions is unchanged. -/
theorem rewrite_preserves_text_outside_doc_blocks :
    (∀ m : Body, emitBody (transformBody [] m) = emitBody m) ∧
    (∀ (mods : List (String × String)) (m : Body),
      emitOutsideBody mods false (transformBody mods m) =
        emitOutsideBody mods false m) := by
  constructor
  · intro m
    rw [transformBody_nil]
  · intro mods m
    exact emitOutsideBody_transform mods m

/-- C5 counterexample.  On a module with two top-level definitions named
`f`, the rewrite with mapping `f ↦ D` modifies the second (later) duplicate
as well: its emitted text differs from the original, refuting "every later
duplicate is left byte-identical". -/
theorem rewrite_modifies_later_duplicate :
    (bodyGet (transformBody [("f", "D")] dupModule) 1).map emitStmt ≠
      (bodyGet dupModule 1).map emitStmt := by
  decide

theorem headIsDocFor_applyDoc (d : String) (b : Body) :
    headIsDocFor d (applyDoc d b) = true := by
  cases b with
  | nil => simp [applyDoc, make_docstring_node, headIsDocFor]
  | cons s rest => cases s <;> simp [applyDoc, make_docstring_node, headIsDocFor]

mutual

theorem targetsDocumentedStmt_transform (mods : List (String × String)) :
    (s : Stmt) → targetsDocumentedStmt mods (transformStmt mods s) = true
  | .simpleStr _ => rfl
  | .simpleOther _ => rfl
  | .funcDef n h b => by
    cases hm : modsGet mods n with
    | none =>
      simp only [transformStmt, hm, targetsDocumentedStmt,
        targetsDocumentedBody_transform mods b, Bool.and_true]
    | some d =>
      simp only [transformStmt, hm, targetsDocumentedStmt,
        headIsDocFor_applyDoc,
        targetsDocumentedBody_applyDoc_transform mods d b, Bool.and_true]
  | .classDef n h b => by
    cases hm : modsGet mods n with
    | none =>
      simp only [transformStmt, hm, targetsDocumentedStmt,
        targetsDocumentedBody_transform mods b, Bool.and_true]
    | some d =>
      simp only [transformStmt, hm, targetsDocumentedStmt,
        headIsDocFor_applyDoc,
        targetsDocumentedBody_applyDoc_transform mods d b, Bool.and_true]

theorem targetsDocumentedBody_transform (mods : List (String × String)) :
    (b : Body) → targetsDocumentedBody mods (transformBody mods b) = true
  | .nil => rfl
  | .cons s rest => by
    simp only [transformBody, targetsDocumentedBody,
      targetsDocumentedStmt_transform mods s,
      targetsDocumentedBody_transform mods rest, Bool.and_self]

theorem targetsDocumentedBody_applyDoc_transform (mods : List (String × String))
    (d : String) :
    (b : Body) → targetsDocumentedBody mods (applyDoc d (transformBody mods b)) = true
  | .nil => by
    simp [transformBody, applyDoc, make_docstring_node, targetsDocumentedBody,
      targetsDocumentedStmt]
  | .cons (.simpleStr t) rest => by
    simp only [transformBody, transformStmt, applyDoc, make_docstring_node,
      targetsDocumentedBody, targetsDocumentedStmt,
      targetsDocumentedBody_transform mods rest, Bool.true_and]
  | .cons (.simpleOther t) rest => by
    simp only [transformBody, transformStmt, applyDoc, make_docstring_node,
      targetsDocumentedBody, targetsDocumentedStmt,
      targetsDocumentedBody_transform mods rest, Bool.true_and, Bool.and_self]
  | .cons (.funcDef n2 h2 b2) rest => by
    have hs := targetsDocumentedStmt_transform mods (.funcDef n2 h2 b2)
    cases hm2 : modsGet mods n2 with
    | none =>
      simp only [transformStmt, hm2] at hs
      simp only [transformBody, transformStmt, hm2, applyDoc]
      simp only [targetsDocumentedBody, Bool.and_eq_true]
      exact ⟨by simp [make_docstring_node, targetsDocumentedStmt], hs,
        targetsDocumentedBody_transform mods rest⟩
    | some d2 =>
      simp only [transformStmt, hm2] at hs
      simp only [transformBody, transformStmt, hm2, applyDoc]
      simp only [targetsDocumentedBody, Bool.and_eq_true]
      exact ⟨by simp [make_docstring_node, targetsDocumentedStmt], hs,
        targetsDocumentedBody_transform mods rest⟩
  | .cons (.classDef n2 h2 b2) rest => by
    have hs := targetsDocumentedStmt_transform mods (.classDef n2 h2 b2)
    cases hm2 : modsGet mods n2 with
    | none =>
      simp only [transformStmt, hm2] at hs
      simp only [transformBody, transformStmt, hm2, applyDoc]
      simp only [targetsDocumentedBody, Bool.and_eq_true]
      exact ⟨by simp [make_docstring_node, targetsDocumentedStmt], hs,
        targetsDocumentedBody_transform mods rest⟩
    | some d2 =>
      simp only [transformStmt, hm2] at hs
      simp only [transformBody, transformStmt, hm2, applyDoc]
      simp only [targetsDocumentedBody, Bool.and_eq_true]
      exact ⟨by simp [make_docstring_node, targetsDocumentedStmt], hs,
        targetsDocumentedBody_transform mods rest⟩

end

/-- C5 (amended).  The rewrite applies the modification to every definition
whose name is in the mapping — later duplicates and nested definitions
included, not only the first pre-order occurrence: after the transform,
every targeted definition's body starts with the generated docstring node
(and no warning is recorded anywhere in the code). -/
theorem rewrite_documents_every_target :
    ∀ (mods : List (String × String)) (m : Body),
      targetsDocumentedBody mods (transformBody mods m) = true := by
  intro mods m
  exact targetsDocumentedBody_transform mods m

theorem sqlSelect_replaceInto_self (t : Table) (k v : String) :
    sqlSelect (sqlReplaceInto t k v) k = some v := by
  induction t with
  | nil => simp [sqlReplaceInto, sqlSelect]
  | cons r rest ih =>
    by_cases hk : r.1 = k
    · simp only [sqlReplaceInto, List.filter_cons] at ih ⊢
      simp only [hk, decide_not, decide_True, Bool.not_true, Bool.false_eq_true,
        if_false]
      simpa [sqlReplaceInto] using ih
    · simp only [sqlReplaceInto, List.filter_cons] at ih ⊢
      simp only [hk, decide_not, decide_False, Bool.not_false, if_true]
      simp only [sqlSelect, List.find?_cons] at ih ⊢
      simp [hk, ih]

theorem uniqueKeys_replaceInto (t : Table) (k v : String) (h : uniqueKeys t) :
    uniqueKeys (sqlReplaceInto t k v) := by
  unfold sqlReplaceInto uniqueKeys
  rw [List.map_append]
  refine List.Nodup.append ?_ (List.nodup_singleton k) ?_
  · exact h.sublist ((List.filter_sublist t).map Prod.fst)
  · intro a ha hb
    simp only [List.map_cons, List.map_nil, List.mem_singleton] at hb
    subst hb
    simp only [List.mem_map, List.mem_filter] at ha
    obtain ⟨r, ⟨_, hr⟩, hfst⟩ := ha
    simp only [decide_not, Bool.not_eq_eq_eq_not, Bool.not_true, decide_eq_false_iff_not] at hr
    exact hr hfst

/-- C8.  Cache writes are idempotent last-write-wins replacements:
`put(f, v)` then `get(f)` yields `v`; a second `put(f, v2)` then `get(f)`
yields `v2`; and a write into a table with unique primary keys keeps the
keys unique (at most one entry per fingerprint, never appended). -/
theorem cache_put_get_last_write_wins :
    ∀ (t : Table) (k v v2 : String), uniqueKeys t →
      cacheGet (cacheSet t k v) k = some v ∧
      cacheGet (cacheSet (cacheSet t k v) k v2) k = some v2 ∧
      uniqueKeys (cacheSet t k v) := by
  intro t k v v2 h
  exact ⟨sqlSelect_replaceInto_self t k v,
    sqlSelect_replaceInto_self (cacheSet t k v) k v2,
    uniqueKeys_replaceInto t k v h⟩

/-- Witness for `cache_put_get_last_write_wins` on a concrete table. -/
theorem cache_put_get_last_write_wins_witness :
    uniqueKeys [("h0", "d0")] ∧
      (cacheGet (cacheSet [("h0", "d0")] "k" "v1") "k" = some "v1" ∧
        cacheGet (cacheSet (cacheSet [("h0", "d0")] "k" "v1") "k" "v2") "k" = some "v2" ∧
        uniqueKeys (cacheSet [("h0", "d0")] "k" "v1")) :=
  ⟨by decide, cache_put_get_last_write_wins [("h0", "d0")] "k" "v1" "v2" (by decide)⟩

/-- C4 counterexample.  Neither `Cache.get` nor the cache block of
`process_file` catches store errors: with a store whose select raises, the
per-unit pipeline step returns that very error instead of treating the
failure as a miss — file processing is aborted, refuting "never aborts". -/
theorem cache_get_failure_aborts_step :
    processDocStep (cacheGetE fun _ => .error "store unreachable")
        (fun _ _ => .ok ()) (fun _ => "generated doc") "key" =
      .error "store unreachable" := rfl

/-- C4 (amended).  A failing cache `get` propagates its error out of the
per-unit pipeline step (aborting it) rather than degrading to a miss, and a
failing `put` likewise propagates instead of being logged and swallowed. -/
theorem cache_errors_propagate :
    ∀ (getFn : String → Except String (Option String))
      (setFn : String → String → Except String Unit)
      (genFn : Unit → String) (key e : String),
      (getFn key = .error e → processDocStep getFn setFn genFn key = .error e) ∧
      (getFn key = .ok none → setFn key (genFn ()) = .error e →
        processDocStep getFn setFn genFn key = .error e) := by
  intro getFn setFn genFn key e
  constructor
  · intro hg
    simp [processDocStep, hg, Bind.bind, Except.bind]
  · intro hg hs
    simp [processDocStep, hg, hs, Bind.bind, Except.bind]

/-- Witness for `cache_errors_propagate` at concrete failing stores. -/
theorem cache_errors_propagate_witness :
    processDocStep (cacheGetE fun _ => .error "down") (fun _ _ => .ok ())
        (fun _ => "doc") "k" = .error "down" ∧
      processDocStep (fun _ => .ok none) (fun _ _ => .error "disk full")
        (fun _ => "doc") "k" = .error "disk full" :=
  ⟨(cache_errors_propagate (cacheGetE fun _ => .error "down") (fun _ _ => .ok ())
      (fun _ => "doc") "k" "down").1 rfl,
    (cache_errors_propagate (fun _ => .ok none) (fun _ _ => .error "disk full")
      (fun _ => "doc") "k" "disk full").2 rfl rfl⟩

theorem dictGet_set_self (d : Dict) (k : String) (v : ConfigVal) :
    dictGet (dictSet d k v) k = some v := by
  induction d with
  | nil => simp [dictSet, dictGet]
  | cons kv rest ih =>
    obtain ⟨k0, v0⟩ := kv
    by_cases hk : k0 = k
    · simp [dictSet, hk, dictGet]
    · simp only [dictSet, hk, if_false]
      simpa [dictGet, List.find?_cons, hk] using ih

theorem dictGet_set_ne (d : Dict) (k k' : String) (v : ConfigVal)
    (h : k' ≠ k) : dictGet (dictSet d k' v) k = dictGet d k := by
  induction d with
  | nil => simp [dictSet, dictGet, h]
  | cons kv rest ih =>
    obtain ⟨k0, v0⟩ := kv
    by_cases hk : k0 = k'
    · subst hk
      simp [dictSet, dictGet, List.find?_cons, h]
    · simp only [dictSet, hk, if_false]
      by_cases hkk : k0 = k
      · simp [dictGet, List.find?_cons, hkk]
      · simpa [dictGet, List.find?_cons, hkk] using ih

theorem dictGet_eq_none_of_not_mem (d : Dict) (k : String)
    (h : k ∉ d.map Prod.fst) : dictGet d k = none := by
  induction d with
  | nil => rfl
  | cons kv rest ih =>
    obtain ⟨k0, v0⟩ := kv
    simp only [List.map_cons, List.mem_cons, not_or] at h
    have hk : ¬(k0 = k) := fun hc => h.1 hc.symm
    simpa [dictGet, List.find?_cons, hk] using ih h.2

theorem dictGet_update_of_none :
    ∀ (user base : Dict) (k : String), dictGet user k = none →
      dictGet (dictUpdate base user) k = dictGet base k := by
  intro user
  induction user with
  | nil => intro base k _; rfl
  | cons kv rest ih =>
    intro base k hnone
    obtain ⟨k1, w⟩ := kv
    have h1 : ¬(k1 = k) := by
      intro hc
      subst hc
      simp [dictGet] at hnone
    have h2 : dictGet rest k = none := by
      simpa [dictGet, List.find?_cons, h1] using hnone
    show dictGet (dictUpdate (dictSet base k1 w) rest) k = dictGet base k
    rw [ih (dictSet base k1 w) k h2, dictGet_set_ne base k k1 w h1]

theorem dictGet_update_of_mem :
    ∀ (user base : Dict) (k : String) (v : ConfigVal),
      (user.map Prod.fst).Nodup → dictGet user k = some v →
      dictGet (dictUpdate base user) k = some v := by
  intro user
  induction user with
  | nil =>
    intro base k v _ hsome
    simp [dictGet] at hsome
  | cons kv rest ih =>
    intro base k v hnodup hsome
    obtain ⟨k1, w⟩ := kv
    simp only [List.map_cons, List.nodup_cons] at hnodup
    by_cases hk : k1 = k
    · subst hk
      have hv : w = v := by simpa [dictGet] using hsome
      have hrest : dictGet rest k1 = none :=
        dictGet_eq_none_of_not_mem rest k1 hnodup.1
      show dictGet (dictUpdate (dictSet base k1 w) rest) k1 = some v
      rw [dictGet_update_of_none rest (dictSet base k1 w) k1 hrest,
        dictGet_set_self base k1 w, hv]
    · have hrest : dictGet rest k = some v := by
        simpa [dictGet, List.find?_cons, hk] using hsome
      show dictGet (dictUpdate (dictSet base k1 w) rest) k = some v
      exact ih (dictSet base k1 w) k v hnodup.2 hrest

/-- C9.  Config merging is a shallow top-level `dict.update`: a user config
whose `prompts` mapping lacks the `default` key wholly replaces the built-in
prompts mapping, leaving `default_prompt = None` in the pipeline, even
though the built-in configuration does carry a default prompt. -/
theorem user_prompts_wholly_replace_defaults :
    ∀ (user : Dict) (m : List (String × String)),
      (user.map Prod.fst).Nodup →
      dictGet user "prompts" = some (.table m) →
      (m.find? fun kv => kv.1 = "default") = none →
      configPrompts (load_config (some user)) = m ∧
      defaultPrompt (load_config (some user)) = none ∧
      (defaultPrompt (load_config none)).isSome = true := by
  intro user m hnd hget hnodef
  have hp : dictGet (load_config (some user)) "prompts" = some (.table m) :=
    dictGet_update_of_mem user DEFAULT_CONFIG "prompts" (.table m) hnd hget
  have hcp : configPrompts (load_config (some user)) = m := by
    simp [configPrompts, hp]
  refine ⟨hcp, ?_, rfl⟩
  simp [defaultPrompt, hcp, hnodef]

/-- Witness for `user_prompts_wholly_replace_defaults` on a concrete user
config supplying only a `custom` prompt. -/
theorem user_prompts_wholly_replace_defaults_witness :
    ([("prompts", ConfigVal.table [("custom", "T")])].map Prod.fst).Nodup ∧
      dictGet [("prompts", ConfigVal.table [("custom", "T")])] "prompts" =
        some (.table [("custom", "T")]) ∧
      ([("custom", "T")].find? fun kv => kv.1 = "default") = none ∧
      (configPrompts
          (load_config (some [("prompts", ConfigVal.table [("custom", "T")])])) =
          [("custom", "T")] ∧
        defaultPrompt
          (load_config (some [("prompts", ConfigVal.table [("custom", "T")])])) =
          none ∧
        (defaultPrompt (load_config none)).isSome = true) :=
  ⟨by decide, by decide, by decide,
    user_prompts_wholly_replace_defaults
      [("prompts", ConfigVal.table [("custom", "T")])] [("custom", "T")]
      (by decide) (by decide) (by decide)⟩

theorem setAdd_nodup (s : List String) (x : String) (h : s.Nodup) :
    (setAdd s x).Nodup := by
  unfold setAdd
  split
  · exact h
  · rename_i hx
    refine List.Nodup.append h (List.nodup_singleton x) ?_
    intro a ha hb
    simp only [List.mem_singleton] at hb
    subst hb
    exact hx ha

theorem setUpdate_nodup (xs : List String) :
    ∀ s : List String, s.Nodup → (setUpdate s xs).Nodup := by
  induction xs with
  | nil => intro s h; exact h
  | cons x rest ih =>
    intro s h
    exact ih (setAdd s x) (setAdd_nodup s x h)

/-- C10.  `collect_files` accumulates matches into a set, so the returned
list never contains a path twice, whatever the glob expansion and existence
predicate do, and however often the patterns overlap. -/
theorem collect_files_returns_no_duplicates :
    ∀ (globFn : String → List String) (existsFn : String → Bool)
      (patterns : List String),
      (collect_files globFn existsFn patterns).Nodup := by
  intro globFn existsFn patterns
  suffices hgen : ∀ (ps : List String) (s : List String), s.Nodup →
      (ps.foldl (fun files pattern =>
        if hasWildcard pattern then setUpdate files (globFn pattern)
        else if existsFn pattern then setAdd files pattern
        else files) s).Nodup by
    exact hgen patterns [] List.nodup_nil
  intro ps
  induction ps with
  | nil => intro s h; exact h
  | cons p rest ih =>
    intro s h
    simp only [List.foldl_cons]
    by_cases hw : hasWildcard p = true
    · simp only [hw, if_true]
      exact ih _ (setUpdate_nodup (globFn p) s h)
    · simp only [hw, if_false]
      by_cases he : existsFn p = true
      · simp only [he, if_true]
        exact ih _ (setAdd_nodup s p h)
      · simp only [he, if_false]
        exact ih _ h

end Docullim
